import Mathlib

/-!
Verification of the document-merger core: a shallow embedding of the
merge orchestration engine (format detection and validation, output-format
decision, merge dispatch, per-format same-format merges, chunked
processing and error classification), together with theorems settling the
specification claims about it.

Sources embedded here:
* `stores/document-store.ts` — `getOutputFormat`, `startProcessing`
  dispatch, `defaultMergeOptions`;
* `lib/utils/file-utils.ts` — `SUPPORTED_FORMATS`, `getDocumentFormat`,
  `validateFile`;
* `lib/utils/error-handler.ts` — `ErrorHandler.identifyErrorCode`;
* `lib/utils/chunk-processor.ts` — chunk boundary computation of
  `ChunkProcessor.processFileInChunks` / `streamFileBuffer`;
* `lib/document-processors/pdf-processor.ts` — `PDFProcessor.mergePDFs`;
* `lib/document-processors/text-processor.ts` — `TextProcessor.mergeTextFiles`,
  `CSVProcessor.parseCSV`, `CSVProcessor.mergeCSVFiles`;
* `lib/document-processors/word-processor.ts` — `WordProcessor.mergeWordDocuments`;
* `lib/document-processors/excel-processor.ts` — `ExcelProcessor.mergeExcelFiles`.

JavaScript strings are modelled as Lean `String`s (lists of characters);
external parsing libraries (pdf-lib, mammoth, xlsx) are modelled by taking
their observable outcome — a successfully parsed document value or a thrown
error (`Option`) — as the input of the embedded function, exactly at the
`try`/`catch` granularity of the source.
-/

/-- The closed set of logical document formats (`DocumentFormat` in
`types/store.ts`). -/
inductive DocumentFormat where
  | pdf | docx | xlsx | pptx | txt | csv
  deriving DecidableEq, Repr

/-- Upper-case rendering used in the reason string
`Single format detected: ...` of `getOutputFormat`. -/
def DocumentFormat.upper : DocumentFormat → String
  | .pdf => "PDF"
  | .docx => "DOCX"
  | .xlsx => "XLSX"
  | .pptx => "PPTX"
  | .txt => "TXT"
  | .csv => "CSV"

/-- Walk of a list that keeps each element the first time it is seen,
carrying the set of elements already seen. -/
def distinctsGo [DecidableEq α] (seen : List α) : List α → List α
  | [] => []
  | a :: rest =>
    if a ∈ seen then distinctsGo seen rest
    else a :: distinctsGo (a :: seen) rest

/-- First-occurrence deduplication: the element order produced by the JS
idioms `[...new Set(xs)]` and `Object.keys(groupBy(xs))`. -/
def distinctsInOrder [DecidableEq α] (l : List α) : List α :=
  distinctsGo [] l

/-- `getOutputFormat` from `document-store.ts` (lines 474-506): decides the
output format and a reason from the current document list.  The JS
`[...new Set(documents.map(doc => doc.format))]` keeps the first occurrence
of each format in order (`distinctsInOrder`).  The input is the list
of the documents' formats, in list order. -/
def getOutputFormat (documents : List DocumentFormat) : DocumentFormat × String :=
  if documents.isEmpty then
    (DocumentFormat.pdf, "No documents selected")
  else
    match distinctsInOrder documents with
    | [format] =>
      if format = DocumentFormat.docx ∧ documents.length > 1 then
        (DocumentFormat.pdf,
          "Multiple Word documents will be merged as PDF to preserve formatting")
      else
        (format, "Single format detected: " ++ format.upper)
    | _ =>
      (DocumentFormat.pdf, "Mixed document formats will be merged as PDF for compatibility")

/-- The three ways `startProcessing` (document-store.ts lines 345-361) can
dispatch a merge job. -/
inductive MergeDispatch where
  | convertAllToPDF
  | nativeMerge (format : DocumentFormat)
  | rejected
  deriving DecidableEq, Repr

/-- The dispatch decision of `startProcessing` (document-store.ts lines
345-361): `inputFormats` is `Object.keys(documentsByFormat)`, i.e. the
distinct formats in first-occurrence order; the first branch calls
`DocumentProcessor.convertAndMergeToPDF`, the second the native
same-format merge for `inputFormats[0]`, and the final branch throws
`Format conversion to ... not yet supported for this combination`. -/
def startProcessingDispatch (documents : List DocumentFormat) : MergeDispatch :=
  let outputFormat := (getOutputFormat documents).1
  let inputFormats := distinctsInOrder documents
  if outputFormat = DocumentFormat.pdf ∧
      (inputFormats.length > 1 ∨
        (inputFormats.length = 1 ∧ inputFormats.head? = some DocumentFormat.docx ∧
          documents.length > 1)) then
    MergeDispatch.convertAllToPDF
  else
    match inputFormats with
    | [format] =>
      if format = outputFormat then MergeDispatch.nativeMerge format
      else MergeDispatch.rejected
    | _ => MergeDispatch.rejected

/-- A file as seen by the validator: name, declared MIME type (`file.type`)
and size in bytes (`file-utils.ts`). -/
structure JSFile where
  name : String
  mimeType : String
  size : Nat

/-- `MAX_FILE_SIZE = 50 * 1024 * 1024` from `file-utils.ts`. -/
def MAX_FILE_SIZE : Nat := 50 * 1024 * 1024

/-- `SUPPORTED_FORMATS` from `file-utils.ts`: the declared MIME-type table,
in object-literal insertion order (the order `Object.entries` iterates). -/
def SUPPORTED_FORMATS : List (DocumentFormat × List String) :=
  [ (DocumentFormat.pdf, ["application/pdf"]),
    (DocumentFormat.docx,
      ["application/vnd.openxmlformats-officedocument.wordprocessingml.document",
       "application/msword"]),
    (DocumentFormat.xlsx,
      ["application/vnd.openxmlformats-officedocument.spreadsheetml.sheet",
       "application/vnd.ms-excel"]),
    (DocumentFormat.pptx,
      ["application/vnd.openxmlformats-officedocument.presentationml.presentation",
       "application/vnd.ms-powerpoint"]),
    (DocumentFormat.txt, ["text/plain"]),
    (DocumentFormat.csv, ["text/csv", "application/csv"]) ]

/-- JavaScript `toLowerCase`, restricted to the per-character lowering that
matters for the ASCII extensions and error messages involved. -/
def jsToLower (s : String) : String := ⟨s.data.map Char.toLower⟩

/-- JavaScript `String.prototype.split` with a single-character separator
(every split in the embedded sources uses one), at the character level. -/
def splitOnChar (c : Char) : List Char → List (List Char)
  | [] => [[]]
  | x :: rest =>
    let r := splitOnChar c rest
    if x = c then [] :: r
    else
      match r with
      | [] => [[x]]
      | h :: t => (x :: h) :: t

/-- `jsSplit sep s` is the JS `s.split(sep)` for a one-character separator. -/
def jsSplit (sep : Char) (s : String) : List String :=
  (splitOnChar sep s.data).map (fun d => ⟨d⟩)

/-- JavaScript `Array.prototype.join`. -/
def joinWith (sep : String) : List String → String
  | [] => ""
  | [x] => x
  | x :: rest => x ++ sep ++ joinWith sep rest

/-- Splitting a character list at every character satisfying a predicate
(generalizing `splitOnChar`); used to state whitespace normalization. -/
def splitOnPred (p : Char → Bool) : List Char → List (List Char)
  | [] => [[]]
  | x :: rest =>
    let r := splitOnPred p rest
    if p x then [] :: r
    else
      match r with
      | [] => [[x]]
      | h :: t => (x :: h) :: t

/-- Following the words of the specification (not the source): the
whitespace normalization under which the round-trip property is stated —
split on whitespace, drop empty fragments, rejoin with single spaces. -/
def specNormalizeWhitespace (s : String) : String :=
  joinWith " "
    (((splitOnPred Char.isWhitespace s.data).filter (fun w => w ≠ [])).map
      (fun w => (⟨w⟩ : String)))

/-- `getDocumentFormat` from `file-utils.ts` (lines 24-45): the MIME table is
consulted first; on no match the lower-cased filename extension
(`file.name.split(".").pop()`) decides; `null` when both fail. -/
def getDocumentFormat (file : JSFile) : Option DocumentFormat :=
  match SUPPORTED_FORMATS.find? (fun entry => file.mimeType ∈ entry.2) with
  | some entry => some entry.1
  | none =>
    match jsToLower ((jsSplit '.' file.name).getLastD "") with
    | "pdf" => some DocumentFormat.pdf
    | "docx" => some DocumentFormat.docx
    | "doc" => some DocumentFormat.docx
    | "xlsx" => some DocumentFormat.xlsx
    | "xls" => some DocumentFormat.xlsx
    | "pptx" => some DocumentFormat.pptx
    | "ppt" => some DocumentFormat.pptx
    | "txt" => some DocumentFormat.txt
    | "csv" => some DocumentFormat.csv
    | _ => none

/-- `validateFile` from `file-utils.ts` (lines 47-64): `none` means valid,
`some msg` carries the error string of the returned `{valid: false, error}`.
The size message interpolates `MAX_FILE_SIZE / 1024 / 1024 = 50`. -/
def validateFile (file : JSFile) : Option String :=
  if file.size > MAX_FILE_SIZE then
    some "File size exceeds 50MB limit"
  else if (getDocumentFormat file).isNone then
    some "Unsupported file format"
  else
    none

/-- The error taxonomy of `ErrorHandler.ERROR_CODES` (`error-handler.ts`). -/
inductive ErrorCode where
  | FILE_TOO_LARGE | UNSUPPORTED_FORMAT | FILE_CORRUPTED | FILE_EMPTY
  | PROCESSING_FAILED | MEMORY_EXCEEDED | MERGE_FAILED | CONVERSION_FAILED
  | PDF_PASSWORD_PROTECTED | PDF_EXTRACTION_FAILED
  | DOCX_COMPLEX_FORMATTING | XLSX_LARGE_SPREADSHEET | PPTX_MEDIA_NOT_SUPPORTED
  | BROWSER_NOT_SUPPORTED | INSUFFICIENT_MEMORY
  | UNKNOWN_ERROR | TIMEOUT_ERROR
  deriving DecidableEq, Repr

/-- JavaScript `String.prototype.includes`: substring containment. -/
def jsIncludes (s pat : String) : Bool :=
  s.data.tails.any (fun t => pat.data.isPrefixOf t)

/-- `ErrorHandler.identifyErrorCode` from `error-handler.ts` (lines 200-273):
the ordered pattern-match chain over the lower-cased message, with the
caller-supplied context as tie-breaker, falling through to `UNKNOWN_ERROR`. -/
def identifyErrorCode (message : String) (context : Option String) : ErrorCode :=
  let m := jsToLower message
  if jsIncludes m "exceeds" ∧ jsIncludes m "limit" then ErrorCode.FILE_TOO_LARGE
  else if jsIncludes m "file size" ∧ jsIncludes m "too large" then ErrorCode.FILE_TOO_LARGE
  else if jsIncludes m "unsupported" ∧ jsIncludes m "format" then ErrorCode.UNSUPPORTED_FORMAT
  else if jsIncludes m "invalid" ∧ jsIncludes m "format" then ErrorCode.UNSUPPORTED_FORMAT
  else if jsIncludes m "corrupt" ∨ jsIncludes m "damaged" then ErrorCode.FILE_CORRUPTED
  else if jsIncludes m "invalid" ∧ (jsIncludes m "pdf" ∨ jsIncludes m "document") then
    ErrorCode.FILE_CORRUPTED
  else if jsIncludes m "empty" ∨ jsIncludes m "no content" then ErrorCode.FILE_EMPTY
  else if jsIncludes m "memory" ∨ jsIncludes m "heap" then ErrorCode.INSUFFICIENT_MEMORY
  else if jsIncludes m "out of memory" then ErrorCode.MEMORY_EXCEEDED
  else if jsIncludes m "password" ∧ jsIncludes m "protect" then ErrorCode.PDF_PASSWORD_PROTECTED
  else if jsIncludes m "pdf" ∧ jsIncludes m "text extraction" then ErrorCode.PDF_EXTRACTION_FAILED
  else if jsIncludes m "merge" ∧ jsIncludes m "failed" then ErrorCode.MERGE_FAILED
  else if jsIncludes m "conversion" ∧ jsIncludes m "failed" then ErrorCode.CONVERSION_FAILED
  else if jsIncludes m "timeout" ∨ jsIncludes m "timed out" then ErrorCode.TIMEOUT_ERROR
  else if context = some "pdf" ∧ jsIncludes m "failed" then ErrorCode.PDF_EXTRACTION_FAILED
  else if context = some "merge" ∧ jsIncludes m "failed" then ErrorCode.MERGE_FAILED
  else if context = some "processing" ∧ jsIncludes m "failed" then ErrorCode.PROCESSING_FAILED
  else ErrorCode.UNKNOWN_ERROR

/-- `Math.ceil(file.size / chunkSize)` from `ChunkProcessor.processFileInChunks`
(`chunk-processor.ts` line 41), as exact natural-number ceiling division. -/
def totalChunks (size chunkSize : Nat) : Nat := (size + chunkSize - 1) / chunkSize

/-- The chunk boundaries produced by `ChunkProcessor.processFileInChunks`
(`chunk-processor.ts` lines 46-66): chunk `j` spans
`[j * chunkSize, min (j * chunkSize + chunkSize) size)`; the same boundaries
are walked by `streamFileBuffer` (lines 142-161). -/
def chunkBounds (size chunkSize : Nat) : List (Nat × Nat) :=
  (List.range (totalChunks size chunkSize)).map
    (fun j => (j * chunkSize, min (j * chunkSize + chunkSize) size))

/-- Result of `PDFProcessor.mergePDFs` (`pdf-processor.ts` lines 51-100),
restricted to its observable fields: the page list of the merged document
(pages are copied by index, in input order), the success flag, and the
metadata stamped when `preserveMetadata` is set.  A source buffer is
`none` when `PDFDocument.load` throws on it. -/
structure PDFMergeResult (Page : Type) where
  success : Bool
  pages : List Page
  stampedTitle : Option String
  deriving Repr, DecidableEq

/-- `PDFProcessor.mergePDFs`: iterate the buffers in order; a buffer whose
load throws is skipped by the `catch`/`continue`; every loaded document
appends all its pages to the merged document; the save always yields a
success result. -/
def mergePDFs {Page : Type} (documents : List (Option (List Page)))
    (preserveMetadata : Bool) : PDFMergeResult Page :=
  let pages := documents.foldl
    (fun acc doc =>
      match doc with
      | none => acc
      | some ps => acc ++ ps)
    []
  { success := true
    pages := pages
    stampedTitle := if preserveMetadata then some "Merged Document" else none }

/-- The per-file header banner `\n\n=== Document N ===\n\n` inserted by
`TextProcessor.mergeTextFiles` when `includeHeaders` is set and the
document is not the first (`text-processor.ts` line 36). -/
def textDocumentBanner (index : Nat) : String :=
  "\n\n=== Document " ++ Nat.repr (index + 1) ++ " ===\n\n"

/-- Join of a document list in which every non-final document is followed
by the separator and every non-first document is preceded by its numbered
banner: the closed form of `mergeTextFiles` with `includeHeaders` set.
The `Nat` argument is the zero-based position of the head element. -/
def joinWithBanners (sep : String) : Nat → List String → String
  | _, [] => ""
  | _, [t] => t
  | i, t :: ts => t ++ sep ++ textDocumentBanner (i + 1) ++ joinWithBanners sep (i + 1) ts

/-- The body of the `documents.forEach((text, index) => ...)` loop of
`TextProcessor.mergeTextFiles` (`text-processor.ts` lines 34-47), walking the
remaining documents with the current `index` and the fixed total count. -/
def mergeTextGo (separator : String) (includeHeaders : Bool) (total : Nat) :
    Nat → List String → String
  | _, [] => ""
  | index, text :: rest =>
    (if includeHeaders ∧ index > 0 then textDocumentBanner index else "")
      ++ text
      ++ (if index < total - 1 then separator else "")
      ++ mergeTextGo separator includeHeaders total (index + 1) rest

/-- `TextProcessor.mergeTextFiles` (`text-processor.ts` lines 20-68): the
merged content string (the returned `ProcessorResult` carries its UTF-8
encoding as `data` with `success: true`).  Defaults: separator
`\n\n---\n\n`, `includeHeaders = false`; `DocumentProcessor.mergeDocuments`
passes `\n\n---PAGE BREAK---\n\n` instead when `pageBreaks` is set. -/
def mergeTextFiles (documents : List String)
    (separator : String := "\n\n---\n\n") (includeHeaders : Bool := false) : String :=
  mergeTextGo separator includeHeaders documents.length 0 documents

/-- JavaScript `String.prototype.trim` (ASCII whitespace suffices here). -/
def jsTrim (s : String) : String :=
  ⟨((s.data.dropWhile Char.isWhitespace).reverse.dropWhile Char.isWhitespace).reverse⟩

/-- The `field.replace(/^"|"$/g, "")` of `CSVProcessor.parseCSV`: remove one
leading double quote if present, then one trailing double quote if present. -/
def stripSurroundingQuotes (s : String) : String :=
  let d :=
    match s.data with
    | '"' :: rest => rest
    | other => other
  if d.getLast? = some '"' then ⟨d.dropLast⟩ else ⟨d⟩

/-- `CSVProcessor.parseCSV` (`text-processor.ts` lines 176-194): split on
newlines, keep the non-blank lines (`if (line.trim())`), split each on
commas, trim each field and strip its surrounding quotes.  Deliberately not
RFC 4180: quoted embedded delimiters are not handled, as in the source. -/
def parseCSV (text : String) : List (List String) :=
  ((jsSplit '\n' text).filter (fun line => jsTrim line ≠ "")).map
    (fun line => (jsSplit ',' line).map (fun field => stripSurroundingQuotes (jsTrim field)))

/-- One step of the `for (const csvText of documents)` loop of
`CSVProcessor.mergeCSVFiles` (`text-processor.ts` lines 209-223).  State:
accumulated `mergedRows` and the `headerProcessed` flag.  Note that the
flag is set before `dataRows` is computed, so the first non-empty file also
has its first row dropped from `dataRows` (it was pushed as the header). -/
def mergeCSVStep (includeHeaders skipDuplicateHeaders : Bool)
    (st : List (List String) × Bool) (csvText : String) :
    List (List String) × Bool :=
  match parseCSV csvText with
  | [] => st
  | r0 :: rest =>
    let takeHeader := includeHeaders && !st.2
    let merged1 := if takeHeader then st.1 ++ [r0] else st.1
    let headerProcessed := if takeHeader then true else st.2
    let dataRows :=
      if includeHeaders && skipDuplicateHeaders && headerProcessed then rest
      else r0 :: rest
    (merged1 ++ dataRows, headerProcessed)

/-- The `mergedRows` accumulated by `CSVProcessor.mergeCSVFiles` over all
input texts (defaults `includeHeaders = true`, `skipDuplicateHeaders = true`,
which are also the values passed by `DocumentProcessor.mergeDocuments`). -/
def mergeCSVRows (documents : List String)
    (includeHeaders : Bool := true) (skipDuplicateHeaders : Bool := true) :
    List (List String) :=
  (documents.foldl (mergeCSVStep includeHeaders skipDuplicateHeaders) ([], false)).1

/-- The final serialization of `CSVProcessor.mergeCSVFiles` (lines 226-228):
every field re-quoted, fields joined with commas, rows with newlines. -/
def csvSerialize (rows : List (List String)) : String :=
  joinWith "\n"
    (rows.map (fun row => joinWith "," (row.map (fun f => "\"" ++ f ++ "\""))))

/-- `CSVProcessor.mergeCSVFiles` (`text-processor.ts` lines 196-247): the
merged CSV text carried by the success `ProcessorResult`. -/
def mergeCSVFiles (documents : List String)
    (includeHeaders : Bool := true) (skipDuplicateHeaders : Bool := true) : String :=
  csvSerialize (mergeCSVRows documents includeHeaders skipDuplicateHeaders)

/-- `MergeOptions` as stored by the document store (`document-store.ts`).
`mode`, `outputName` and `quality` are carried as strings. -/
structure MergeOptions where
  mode : String
  outputName : String
  preserveMetadata : Bool
  preserveFormatting : Bool
  quality : String
  pageBreaks : Bool
  includeHeaders : Bool
  includeFooters : Bool
  deriving Repr, DecidableEq

/-- `defaultMergeOptions` from `document-store.ts` lines 44-53. -/
def defaultMergeOptions : MergeOptions :=
  { mode := "sequential"
    outputName := "merged-document"
    preserveMetadata := true
    preserveFormatting := true
    quality := "medium"
    pageBreaks := false
    includeHeaders := false
    includeFooters := false }

/-- Per-document input of `WordProcessor.mergeWordDocuments`, at the
granularity of the external mammoth library plus the fixed HTML-to-text
`replace` chain: `viaHtml textContent` is a document whose
`convertToHtml` output was non-blank, already pushed through that chain;
`viaRaw raw` is one whose HTML came back blank so `extractRawText` is
used; `throws` is a document whose per-document processing threw. -/
inductive WordDocInput where
  | viaHtml (textContent : String)
  | viaRaw (raw : String)
  | throws
  deriving Repr

/-- The non-blank trimmed lines of a text, as pushed one paragraph per line
by `mergeWordDocuments` (`word-processor.ts` lines 93-104 and 121-130). -/
def wordLinesOf (text : String) : List String :=
  ((jsSplit '\n' text).filter (fun line => jsTrim line ≠ "")).map jsTrim

/-- The paragraph texts built by the document loop of
`WordProcessor.mergeWordDocuments` (lines 48-161): page-break and spacer
paragraphs carry empty text, headers and error placeholders their visible
text. -/
def wordParagraphsGo (options : MergeOptions) (total : Nat) :
    Nat → List WordDocInput → List String
  | _, [] => []
  | i, doc :: rest =>
    (match doc with
     | WordDocInput.viaHtml textContent =>
       (if i > 0 ∧ options.pageBreaks then [""] else [])
         ++ (if options.includeHeaders then ["=== Document " ++ Nat.repr (i + 1) ++ " ==="] else [])
         ++ wordLinesOf textContent
         ++ (if i < total - 1 then [""] else [])
     | WordDocInput.viaRaw raw =>
       (if i > 0 ∧ options.pageBreaks then [""] else [])
         ++ wordLinesOf raw
         ++ (if i < total - 1 then [""] else [])
     | WordDocInput.throws =>
       ["[Error: Could not process document " ++ Nat.repr (i + 1) ++ "]"])
      ++ wordParagraphsGo options total (i + 1) rest

/-- Result of `WordProcessor.mergeWordDocuments`: success flag, the
paragraph texts of the produced document, and the error string of a failure
`ProcessorResult`. -/
structure WordMergeResult where
  success : Bool
  paragraphs : List String
  error : Option String
  deriving Repr, DecidableEq

/-- `WordProcessor.mergeWordDocuments` (`word-processor.ts` lines 26-210):
when `options.preserveFormatting` is truthy the function returns a failure
`ProcessorResult` immediately, before the document loop; otherwise it
builds the paragraph list and fails only when no paragraph was produced. -/
def mergeWordDocuments (documents : List WordDocInput) (options : MergeOptions) :
    WordMergeResult :=
  if options.preserveFormatting then
    { success := false
      paragraphs := []
      error := some ("To preserve original formatting, please convert your DOCX files to " ++
        "PDF first and merge them as PDFs. Direct DOCX merging with full formatting " ++
        "preservation is not yet supported.") }
  else
    let paragraphs := wordParagraphsGo options documents.length 0 documents
    if paragraphs = [] then
      { success := false, paragraphs := [], error := some "No content found in any document" }
    else
      { success := true, paragraphs := paragraphs, error := none }

/-- Decimal rendering of a natural number as its character list — the JS
template interpolation of a number (used for the `sheetCounter` suffixes and
the `FileN_Error` sheet names in `excel-processor.ts`). -/
def decChars (n : Nat) : List Char :=
  if _h : n < 10 then [Nat.digitChar n]
  else decChars (n / 10) ++ [Nat.digitChar (n % 10)]
  termination_by n
  decreasing_by exact Nat.div_lt_self (by omega) (by omega)

/-- Decimal value of a digit string — the inverse of `decChars`, used to
show decimal renderings of distinct numbers are distinct. -/
def decVal (l : List Char) : Nat :=
  l.foldl (fun a c => 10 * a + (c.toNat - 48)) 0

/-- A worksheet as far as the Excel merge is concerned: its name and
whether it has a populated range (`sheet["!ref"]`); sheets without one are
skipped by the merge loop. -/
structure Sheet where
  name : List Char
  hasRef : Bool
  deriving Repr, DecidableEq

/-- The candidate sheet names tried by the uniqueness loop of
`ExcelProcessor.mergeExcelFiles` (`excel-processor.ts` lines 342-348):
candidate `0` is `newSheetName.substring(0, 31)`; candidate `k ≥ 1` is
`newSheetName.substring(0, 31 - suffix.length) + suffix` with suffix
`_k` (JS `substring` clamps a negative end to `0`, as `Nat` subtraction
does). -/
def sheetNameCandidate (base : List Char) (k : Nat) : List Char :=
  if k = 0 then base.take 31
  else
    let suffix := '_' :: decChars k
    base.take (31 - suffix.length) ++ suffix

/-- Largest length of any name in a list (helper for showing the
uniqueness loop always has a free candidate). -/
def maxNameLength (l : List (List Char)) : Nat :=
  l.foldr (fun a m => max a.length m) 0

/-- The uniqueness loop of `mergeExcelFiles` terminates: some candidate is
not yet taken, because candidate lengths grow without bound (a candidate
whose numeric suffix is long enough is longer than every existing name). -/
theorem exists_free_candidate (existing : List (List Char)) (base : List Char) :
    ∃ k, sheetNameCandidate base k ∉ existing := by
  have hmax : ∀ a ∈ existing, List.length a ≤ maxNameLength existing := by
    intro a ha
    induction existing with
    | nil => cases ha
    | cons b t ih =>
      rcases List.mem_cons.mp ha with rfl | ha
      · exact le_max_left _ _
      · exact le_trans (ih ha) (le_max_right _ _)
  have hten : ∀ n : Nat, 0 < n → decChars (10 * n) = decChars n ++ ['0'] := by
    intro n hn
    rw [decChars]
    have h1 : ¬ 10 * n < 10 := by omega
    simp only [h1, dite_false]
    have h2 : 10 * n / 10 = n := by omega
    have h3 : 10 * n % 10 = 0 := by omega
    rw [h2, h3]
    rfl
  have hpow : ∀ e : Nat, (decChars (10 ^ e)).length = e + 1 := by
    intro e
    induction e with
    | zero => rw [pow_zero, decChars]; rfl
    | succ e ih =>
      have h10 : (10 : Nat) ^ (e + 1) = 10 * 10 ^ e := by ring
      rw [h10, hten _ (Nat.pos_pow_of_pos e (by omega))]
      simp [ih]
  refine ⟨10 ^ (maxNameLength existing + 31), fun hmem => ?_⟩
  have hlen : (sheetNameCandidate base (10 ^ (maxNameLength existing + 31))).length ≤
      maxNameLength existing := hmax _ hmem
  have hk2 : ¬ (10 : Nat) ^ (maxNameLength existing + 31) = 0 :=
    pow_ne_zero _ (by omega)
  rw [sheetNameCandidate] at hlen
  simp only [hk2, if_false] at hlen
  have hsuf : ('_' :: decChars (10 ^ (maxNameLength existing + 31))).length =
      maxNameLength existing + 33 := by
    simp [hpow]
  rw [List.length_append, hsuf] at hlen
  omega

/-- The `while (mergedWorkbook.SheetNames.includes(finalName))` loop of
`ExcelProcessor.mergeExcelFiles`: starting from the truncated name and
counting the suffix up from 1, it returns the first candidate not already
present, i.e. the candidate at the least free index. -/
def ensureUniqueSheetName (existing : List (List Char)) (base : List Char) : List Char :=
  sheetNameCandidate base (Nat.find (exists_free_candidate existing base))

/-- The default-branch sheet naming of `ExcelProcessor.mergeExcelFiles`
(line 338): the very first sheet of the first file keeps its own name,
every other sheet is prefixed `File(i+1)_`.  (`sheetCounter` is incremented
in this branch but its value is not used by the name.) -/
def defaultSheetName (i sheetIndex : Nat) (sheetName : List Char) : List Char :=
  if i = 0 ∧ sheetIndex = 0 then sheetName
  else "File".data ++ decChars (i + 1) ++ "_".data ++ sheetName

/-- The synthetic sheet name `File(i+1)_Error` added when reading file `i`
throws (`excel-processor.ts` line 363); it is pushed without running the
uniqueness loop. -/
def errorSheetName (i : Nat) : List Char :=
  "File".data ++ decChars (i + 1) ++ "_Error".data

/-- The `workbook.SheetNames.forEach((sheetName, sheetIndex) => ...)` loop
for one successfully parsed file `i`: sheets without a range are skipped,
every other sheet is renamed by the default naming, made unique against
all names accumulated so far, and appended. -/
def addWorkbookSheets (i : Nat) : Nat → List Sheet → List (List Char) → List (List Char)
  | _, [], acc => acc
  | sheetIndex, s :: rest, acc =>
    if s.hasRef then
      addWorkbookSheets i (sheetIndex + 1) rest
        (acc ++ [ensureUniqueSheetName acc (defaultSheetName i sheetIndex s.name)])
    else
      addWorkbookSheets i (sheetIndex + 1) rest acc

/-- The file loop of `ExcelProcessor.mergeExcelFiles` (lines 294-375) over
the merged workbook's `SheetNames`: a file whose `XLSX.read` throws
(`none`) contributes the error sheet, a parsed file contributes its
renamed sheets. -/
def mergeExcelGo : Nat → List (Option (List Sheet)) → List (List Char) → List (List Char)
  | _, [], acc => acc
  | i, none :: rest, acc => mergeExcelGo (i + 1) rest (acc ++ [errorSheetName i])
  | i, some sheets :: rest, acc => mergeExcelGo (i + 1) rest (addWorkbookSheets i 0 sheets acc)

/-- Upper bound on the number of sheet names the merge loop can append for
a given input list: one error sheet per unreadable file, at most one name
per sheet of a parsed file. -/
def insertionBound : List (Option (List Sheet)) → Nat
  | [] => 0
  | none :: rest => 1 + insertionBound rest
  | some sheets :: rest => sheets.length + insertionBound rest

/-- Result of `ExcelProcessor.mergeExcelFiles`, restricted to the output
workbook's sheet names (the merge is a union of sheets; contents are
carried over unchanged apart from formula stripping, which does not touch
names). -/
structure ExcelMergeResult where
  success : Bool
  sheetNames : List (List Char)
  error : Option String
  deriving Repr, DecidableEq

/-- `ExcelProcessor.mergeExcelFiles` (`excel-processor.ts` lines 269-427),
as called by `DocumentProcessor.mergeDocuments` (no `sheetNaming` option,
so the default naming branch applies): builds the merged `SheetNames`; when
no sheet at all was collected the `No valid sheets found in any document`
error is thrown and caught into a failure result. -/
def mergeExcelFiles (documents : List (Option (List Sheet))) : ExcelMergeResult :=
  let names := mergeExcelGo 0 documents []
  if names.isEmpty then
    { success := false, sheetNames := [], error := some "No valid sheets found in any document" }
  else
    { success := true, sheetNames := names, error := none }

/-! ## General lemmas about the embedded operations -/

theorem mem_distinctsGo [DecidableEq α] (g : α) :
    ∀ (l seen : List α), g ∈ distinctsGo seen l ↔ (g ∈ l ∧ g ∉ seen) := by
  intro l
  induction l with
  | nil => intro seen; simp [distinctsGo]
  | cons a rest ih =>
    intro seen
    rw [distinctsGo]
    by_cases ha : a ∈ seen
    · rw [if_pos ha, ih]
      constructor
      · rintro ⟨h1, h2⟩
        exact ⟨List.mem_cons_of_mem _ h1, h2⟩
      · rintro ⟨h1, h2⟩
        rcases List.mem_cons.mp h1 with rfl | h1
        · exact absurd ha h2
        · exact ⟨h1, h2⟩
    · rw [if_neg ha]
      simp only [List.mem_cons]
      rw [ih]
      constructor
      · rintro (rfl | ⟨h1, h2⟩)
        · exact ⟨Or.inl rfl, ha⟩
        · refine ⟨Or.inr h1, fun hg => h2 (List.mem_cons_of_mem _ hg)⟩
      · rintro ⟨h0, h2⟩
        by_cases hga : g = a
        · exact Or.inl hga
        · rcases h0 with rfl | h1
          · exact absurd rfl hga
          · refine Or.inr ⟨h1, fun hg => ?_⟩
            rcases List.mem_cons.mp hg with rfl | hg
            · exact hga rfl
            · exact h2 hg

theorem mem_distinctsInOrder [DecidableEq α] (g : α) (l : List α) :
    g ∈ distinctsInOrder l ↔ g ∈ l := by
  rw [distinctsInOrder, mem_distinctsGo]
  simp

theorem distinctsGo_eq_nil_iff [DecidableEq α] :
    ∀ (l seen : List α), distinctsGo seen l = [] ↔ ∀ g ∈ l, g ∈ seen := by
  intro l
  induction l with
  | nil => intro seen; simp [distinctsGo]
  | cons a rest ih =>
    intro seen
    rw [distinctsGo]
    by_cases ha : a ∈ seen
    · rw [if_pos ha, ih]
      constructor
      · intro h g hg
        rcases List.mem_cons.mp hg with rfl | hg
        · exact ha
        · exact h g hg
      · intro h g hg
        exact h g (List.mem_cons_of_mem _ hg)
    · rw [if_neg ha]
      constructor
      · intro h; cases h
      · intro h
        exact absurd (h a (by simp)) ha

theorem distinctsInOrder_eq_nil_iff [DecidableEq α] (l : List α) :
    distinctsInOrder l = [] ↔ l = [] := by
  rw [distinctsInOrder, distinctsGo_eq_nil_iff]
  cases l with
  | nil => simp
  | cons a t =>
    constructor
    · intro h
      exact absurd (h a (by simp)) (List.not_mem_nil a)
    · intro h
      cases h

theorem distinctsInOrder_eq_single_iff [DecidableEq α] (l : List α) (f : α) :
    distinctsInOrder l = [f] ↔ (l ≠ [] ∧ ∀ g ∈ l, g = f) := by
  match l with
  | [] => simp [distinctsInOrder, distinctsGo]
  | a :: rest =>
    rw [distinctsInOrder, distinctsGo, if_neg (List.not_mem_nil a)]
    constructor
    · intro h
      have ha : a = f := by
        have := congrArg (fun x => x.head?) h
        simpa using this
      have htail : distinctsGo [a] rest = [] := by
        have := congrArg (fun x => x.tail) h
        simpa using this
      rw [distinctsGo_eq_nil_iff] at htail
      refine ⟨by simp, ?_⟩
      intro g hg
      rcases List.mem_cons.mp hg with rfl | hg
      · exact ha
      · have : g ∈ [a] := htail g hg
        simp at this
        exact this.trans ha
    · rintro ⟨-, hall⟩
      have ha : a = f := hall a (by simp)
      have htail : distinctsGo [a] rest = [] := by
        rw [distinctsGo_eq_nil_iff]
        intro g hg
        have : g = f := hall g (List.mem_cons_of_mem _ hg)
        simp [this, ha]
      rw [htail, ha]

theorem distinctsInOrder_two_le_length [DecidableEq α] {l : List α} {a b : α}
    (ha : a ∈ l) (hb : b ∈ l) (hab : a ≠ b) :
    ∃ x y t, distinctsInOrder l = x :: y :: t := by
  have hne : l ≠ [] := by rintro rfl; cases ha
  match h : distinctsInOrder l with
  | [] =>
    rw [distinctsInOrder_eq_nil_iff] at h
    exact absurd h hne
  | [f] =>
    rw [distinctsInOrder_eq_single_iff] at h
    have h1 : a = f := h.2 a ha
    have h2 : b = f := h.2 b hb
    exact absurd (h1.trans h2.symm) hab
  | x :: y :: t => exact ⟨x, y, t, rfl⟩

theorem isEmpty_false_of_ne_nil {α : Type _} {l : List α} (h : l ≠ []) :
    l.isEmpty = false := by
  cases l with
  | nil => exact absurd rfl h
  | cons a t => rfl

theorem getOutputFormat_single {docs : List DocumentFormat} {f : DocumentFormat}
    (hne : docs ≠ []) (hall : ∀ g ∈ docs, g = f)
    (hcase : docs.length = 1 ∨ f ≠ DocumentFormat.docx) :
    getOutputFormat docs = (f, "Single format detected: " ++ f.upper) := by
  have hsingle : distinctsInOrder docs = [f] :=
    (distinctsInOrder_eq_single_iff docs f).mpr ⟨hne, hall⟩
  rw [getOutputFormat, isEmpty_false_of_ne_nil hne]
  simp only [Bool.false_eq_true, if_false]
  rw [hsingle]
  have hcond : ¬ (f = DocumentFormat.docx ∧ docs.length > 1) := by
    rcases hcase with h1 | h2
    · rintro ⟨-, hgt⟩; omega
    · rintro ⟨heq, -⟩; exact h2 heq
  simp [hcond]

theorem getOutputFormat_multiDocx {docs : List DocumentFormat}
    (hall : ∀ g ∈ docs, g = DocumentFormat.docx) (hlen : 2 ≤ docs.length) :
    getOutputFormat docs =
      (DocumentFormat.pdf,
        "Multiple Word documents will be merged as PDF to preserve formatting") := by
  have hne : docs ≠ [] := by rintro rfl; simp at hlen
  have hsingle : distinctsInOrder docs = [DocumentFormat.docx] :=
    (distinctsInOrder_eq_single_iff docs _).mpr ⟨hne, hall⟩
  rw [getOutputFormat, isEmpty_false_of_ne_nil hne]
  simp only [Bool.false_eq_true, if_false]
  rw [hsingle]
  have hcond : DocumentFormat.docx = DocumentFormat.docx ∧ docs.length > 1 := ⟨rfl, by omega⟩
  simp [hcond]

theorem getOutputFormat_mixed {docs : List DocumentFormat} {a b : DocumentFormat}
    (ha : a ∈ docs) (hb : b ∈ docs) (hab : a ≠ b) :
    getOutputFormat docs =
      (DocumentFormat.pdf,
        "Mixed document formats will be merged as PDF for compatibility") := by
  obtain ⟨x, y, t, hxy⟩ := distinctsInOrder_two_le_length ha hb hab
  have hne : docs ≠ [] := by rintro rfl; cases ha
  rw [getOutputFormat, isEmpty_false_of_ne_nil hne]
  simp only [Bool.false_eq_true, if_false]
  rw [hxy]

/-! ## C1: the output-format decision -/

/-- C1.  `getOutputFormat` is a pure function of the input formats and the
document count: an empty list yields `pdf`; a single present format yields
that format when the count is 1 or the format is not `docx`; all-`docx`
input with count at least 2 yields `pdf`; two or more distinct formats
yield `pdf`. -/
theorem getOutputFormat_claim :
    ((getOutputFormat []).1 = DocumentFormat.pdf) ∧
    (∀ (docs : List DocumentFormat) (f : DocumentFormat),
      docs ≠ [] → (∀ g ∈ docs, g = f) → (docs.length = 1 ∨ f ≠ DocumentFormat.docx) →
      (getOutputFormat docs).1 = f) ∧
    (∀ docs : List DocumentFormat,
      (∀ g ∈ docs, g = DocumentFormat.docx) → 2 ≤ docs.length →
      (getOutputFormat docs).1 = DocumentFormat.pdf) ∧
    (∀ docs : List DocumentFormat,
      (∃ a ∈ docs, ∃ b ∈ docs, a ≠ b) → (getOutputFormat docs).1 = DocumentFormat.pdf) := by
  refine ⟨rfl, ?_, ?_, ?_⟩
  · intro docs f hne hall hcase
    rw [getOutputFormat_single hne hall hcase]
  · intro docs hall hlen
    rw [getOutputFormat_multiDocx hall hlen]
  · intro docs ⟨a, ha, b, hb, hab⟩
    rw [getOutputFormat_mixed ha hb hab]

/-! ## C5: the merge dispatch -/

/-- C5.  For a non-empty, fully analyzed document set, `startProcessing`
dispatches as follows: when the decided output is pdf because several
formats are present or the sole format is docx with count at least 2, every
document goes through the conversion bridge and the results are PDF-merged
(`convertAllToPDF`); when the single input format equals the decided output
format, that format's native same-format merge is called directly; in every
remaining combination the job is rejected with the explicit
`Format conversion ... not yet supported` error before any merge (the last
conjunct shows the remaining combinations are contradictory for non-empty
sets, so the eager rejection is vacuously as specified). -/
theorem startProcessingDispatch_claim (docs : List DocumentFormat) (hne : docs ≠ []) :
    (((∃ a ∈ docs, ∃ b ∈ docs, a ≠ b) ∨
        ((∀ g ∈ docs, g = DocumentFormat.docx) ∧ 2 ≤ docs.length)) →
      startProcessingDispatch docs = MergeDispatch.convertAllToPDF) ∧
    (∀ f : DocumentFormat, (∀ g ∈ docs, g = f) →
      (getOutputFormat docs).1 = f →
      startProcessingDispatch docs = MergeDispatch.nativeMerge f) ∧
    (¬ ((∃ a ∈ docs, ∃ b ∈ docs, a ≠ b) ∨
        ((∀ g ∈ docs, g = DocumentFormat.docx) ∧ 2 ≤ docs.length)) →
      ¬ (∃ f, (∀ g ∈ docs, g = f) ∧ (getOutputFormat docs).1 = f) →
      startProcessingDispatch docs = MergeDispatch.rejected) := by
  refine ⟨?_, ?_, ?_⟩
  · rintro (⟨a, ha, b, hb, hab⟩ | ⟨hall, hlen⟩)
    · obtain ⟨x, y, t, hxy⟩ := distinctsInOrder_two_le_length ha hb hab
      rw [startProcessingDispatch]
      have hout : (getOutputFormat docs).1 = DocumentFormat.pdf := by
        rw [getOutputFormat_mixed ha hb hab]
      have hcond : (getOutputFormat docs).1 = DocumentFormat.pdf ∧
          ((distinctsInOrder docs).length > 1 ∨
            ((distinctsInOrder docs).length = 1 ∧
              (distinctsInOrder docs).head? = some DocumentFormat.docx ∧
              docs.length > 1)) := by
        refine ⟨hout, Or.inl ?_⟩
        rw [hxy]
        simp
      rw [if_pos hcond]
    · have hsingle : distinctsInOrder docs = [DocumentFormat.docx] :=
        (distinctsInOrder_eq_single_iff docs _).mpr
          ⟨by rintro rfl; simp at hlen, hall⟩
      rw [startProcessingDispatch]
      have hout : (getOutputFormat docs).1 = DocumentFormat.pdf := by
        rw [getOutputFormat_multiDocx hall hlen]
      have hcond : (getOutputFormat docs).1 = DocumentFormat.pdf ∧
          ((distinctsInOrder docs).length > 1 ∨
            ((distinctsInOrder docs).length = 1 ∧
              (distinctsInOrder docs).head? = some DocumentFormat.docx ∧
              docs.length > 1)) := by
        refine ⟨hout, Or.inr ?_⟩
        rw [hsingle]
        refine ⟨rfl, rfl, by omega⟩
      rw [if_pos hcond]
  · intro f hall hout
    have hsingle : distinctsInOrder docs = [f] :=
      (distinctsInOrder_eq_single_iff docs f).mpr ⟨hne, hall⟩
    have hcase : docs.length = 1 ∨ f ≠ DocumentFormat.docx := by
      by_contra hc
      push_neg at hc
      obtain ⟨hlen1, hdocx⟩ := hc
      subst hdocx
      have hlen2 : 2 ≤ docs.length := by
        have : 1 ≤ docs.length := by
          cases docs with
          | nil => exact absurd rfl hne
          | cons a t => simp
        omega
      rw [getOutputFormat_multiDocx hall hlen2] at hout
      simp at hout
    have hcond : ¬ ((getOutputFormat docs).1 = DocumentFormat.pdf ∧
        ((distinctsInOrder docs).length > 1 ∨
          ((distinctsInOrder docs).length = 1 ∧
            (distinctsInOrder docs).head? = some DocumentFormat.docx ∧
            docs.length > 1))) := by
      rintro ⟨hpdf, hdisj⟩
      rw [hsingle] at hdisj
      rcases hdisj with h1 | ⟨-, hhead, hgt⟩
      · simp at h1
      · have hfd : f = DocumentFormat.docx := by
          simpa using hhead
        rcases hcase with h1 | h2
        · omega
        · exact h2 hfd
    rw [startProcessingDispatch, if_neg hcond, hsingle]
    simp only []
    rw [if_pos hout.symm]
  · intro hnotconv hnotsingle
    exfalso
    by_cases hmix : ∃ a ∈ docs, ∃ b ∈ docs, a ≠ b
    · exact hnotconv (Or.inl hmix)
    · push_neg at hmix
      match docs, hne with
      | f0 :: rest, _ =>
        have hall : ∀ g ∈ f0 :: rest, g = f0 := by
          intro g hg
          exact hmix g hg f0 (by simp)
        by_cases hcase : (f0 :: rest).length = 1 ∨ f0 ≠ DocumentFormat.docx
        · exact hnotsingle ⟨f0, hall, by rw [getOutputFormat_single (by simp) hall hcase]⟩
        · push_neg at hcase
          obtain ⟨hlen1, hdocx⟩ := hcase
          subst hdocx
          have hlen2 : 2 ≤ (DocumentFormat.docx :: rest).length := by
            simp only [List.length_cons] at hlen1 ⊢
            omega
          exact hnotconv (Or.inr ⟨hall, hlen2⟩)

/-! ## C2: PDF same-format merge skips unreadable documents -/

theorem mergePDFs_foldl_pages {Page : Type} :
    ∀ (documents : List (Option (List Page))) (acc : List Page),
      documents.foldl
        (fun acc doc =>
          match doc with
          | none => acc
          | some ps => acc ++ ps)
        acc = acc ++ (documents.filterMap id).flatten := by
  intro documents
  induction documents with
  | nil => intro acc; simp
  | cons d rest ih =>
    intro acc
    cases d with
    | none => simp [List.foldl_cons, ih]
    | some ps => rw [List.foldl_cons]; simp only []; rw [ih (acc ++ ps)]; simp

theorem mergePDFs_pages {Page : Type} (documents : List (Option (List Page)))
    (preserveMetadata : Bool) :
    (mergePDFs documents preserveMetadata).pages = (documents.filterMap id).flatten := by
  rw [mergePDFs]
  exact (mergePDFs_foldl_pages documents []).trans (by simp)

/-- C2.  `PDFProcessor.mergePDFs` treats a per-document load failure as
skippable, never fatal: for every input list the result is a success whose
pages are exactly the concatenated pages of the loadable documents in
order, so the operation returns an unsuccessful result only if zero
documents contributed a page (vacuously — it never does); in particular one
corrupted buffer alongside two valid ones yields exactly the two valid
documents' pages. -/
theorem mergePDFs_claim :
    (∀ (Page : Type) (documents : List (Option (List Page))) (preserveMetadata : Bool),
      (mergePDFs documents preserveMetadata).success = true ∧
      (mergePDFs documents preserveMetadata).pages = (documents.filterMap id).flatten ∧
      ((mergePDFs documents preserveMetadata).success = false →
        (documents.filterMap id).flatten = [])) ∧
    (∀ (Page : Type) (pagesA pagesB : List Page) (preserveMetadata : Bool),
      (mergePDFs [some pagesA, none, some pagesB] preserveMetadata).success = true ∧
      (mergePDFs [some pagesA, none, some pagesB] preserveMetadata).pages =
        pagesA ++ pagesB) := by
  constructor
  · intro Page documents preserveMetadata
    refine ⟨rfl, mergePDFs_pages documents preserveMetadata, ?_⟩
    intro h
    cases h
  · intro Page pagesA pagesB preserveMetadata
    refine ⟨rfl, ?_⟩
    rw [mergePDFs_pages]
    simp

/-! ## C3: validation limits and their classification -/

/-- C3.  `validateFile` rejects files over 50MB with a message classified
as `FILE_TOO_LARGE` by the error classifier (under the `validation` context
used by the store); files at most 50MB whose format cannot be detected are
rejected with a message classified as `UNSUPPORTED_FORMAT`; every other
file passes validation. -/
theorem validateFile_claim (file : JSFile) :
    (file.size > MAX_FILE_SIZE →
      validateFile file = some "File size exceeds 50MB limit" ∧
      identifyErrorCode "File size exceeds 50MB limit" (some "validation") =
        ErrorCode.FILE_TOO_LARGE) ∧
    (file.size ≤ MAX_FILE_SIZE → getDocumentFormat file = none →
      validateFile file = some "Unsupported file format" ∧
      identifyErrorCode "Unsupported file format" (some "validation") =
        ErrorCode.UNSUPPORTED_FORMAT) ∧
    (file.size ≤ MAX_FILE_SIZE → (getDocumentFormat file).isSome = true →
      validateFile file = none) := by
  refine ⟨?_, ?_, ?_⟩
  · intro hsize
    exact ⟨by rw [validateFile, if_pos hsize], by decide⟩
  · intro hsize hfmt
    refine ⟨?_, by decide⟩
    rw [validateFile, if_neg (by omega), hfmt]
    rfl
  · intro hsize hfmt
    rw [validateFile, if_neg (by omega)]
    have : (getDocumentFormat file).isNone = false := by
      cases h : getDocumentFormat file with
      | none => rw [h] at hfmt; cases hfmt
      | some f => rfl
    rw [this]
    rfl

/-! ## C4: chunk boundaries -/

theorem totalChunks_eq {size chunkSize : Nat} (hc : 0 < chunkSize) :
    totalChunks size chunkSize =
      size / chunkSize + (if size % chunkSize = 0 then 0 else 1) := by
  rw [totalChunks]
  have hmod := Nat.div_add_mod size chunkSize
  have hrlt : size % chunkSize < chunkSize := Nat.mod_lt _ hc
  by_cases h0 : size % chunkSize = 0
  · rw [if_pos h0]
    rcases Nat.eq_zero_or_pos (size / chunkSize) with hq0 | hqpos
    · have hm0 : chunkSize * (size / chunkSize) = 0 := by rw [hq0]; ring
      have hsz : size = 0 := by omega
      rw [hsz, Nat.zero_div]
      simpa using Nat.div_eq_of_lt (show 0 + chunkSize - 1 < chunkSize by omega)
    · have hone : chunkSize * 1 ≤ chunkSize * (size / chunkSize) :=
        Nat.mul_le_mul_left _ hqpos
      have hmul1 : chunkSize * 1 = chunkSize := Nat.mul_one _
      have harr : size + chunkSize - 1 =
          (chunkSize - 1) + chunkSize * (size / chunkSize) := by omega
      rw [harr, Nat.add_mul_div_left _ _ hc,
        Nat.div_eq_of_lt (show chunkSize - 1 < chunkSize by omega)]
      omega
  · rw [if_neg h0]
    have hdist : chunkSize * (size / chunkSize + 1) =
        chunkSize * (size / chunkSize) + chunkSize := by ring
    have harr : size + chunkSize - 1 =
        (size % chunkSize - 1) + chunkSize * (size / chunkSize + 1) := by omega
    rw [harr, Nat.add_mul_div_left _ _ hc,
      Nat.div_eq_of_lt (show size % chunkSize - 1 < chunkSize by omega)]
    omega

theorem size_le_mul_totalChunks {size chunkSize : Nat} (hc : 0 < chunkSize) :
    size ≤ chunkSize * totalChunks size chunkSize := by
  have hmod := Nat.div_add_mod size chunkSize
  have hrlt : size % chunkSize < chunkSize := Nat.mod_lt _ hc
  rw [totalChunks_eq hc]
  by_cases h0 : size % chunkSize = 0
  · rw [if_pos h0]
    have : chunkSize * (size / chunkSize + 0) = chunkSize * (size / chunkSize) := by ring
    omega
  · rw [if_neg h0]
    have : chunkSize * (size / chunkSize + 1) =
        chunkSize * (size / chunkSize) + chunkSize := by ring
    omega

theorem mul_pred_totalChunks_lt {size chunkSize : Nat} (hs : 0 < size) (hc : 0 < chunkSize) :
    chunkSize * (totalChunks size chunkSize - 1) < size := by
  have hmod := Nat.div_add_mod size chunkSize
  have hrlt : size % chunkSize < chunkSize := Nat.mod_lt _ hc
  rw [totalChunks_eq hc]
  by_cases h0 : size % chunkSize = 0
  · rw [if_pos h0]
    have hqpos : 0 < size / chunkSize := by
      rcases Nat.eq_zero_or_pos (size / chunkSize) with hq0 | hqpos
      · have hm0 : chunkSize * (size / chunkSize) = 0 := by rw [hq0]; ring
        omega
      · exact hqpos
    simp only [Nat.add_zero]
    have hone : size / chunkSize - 1 + 1 = size / chunkSize := by omega
    have hstep : chunkSize * (size / chunkSize - 1) + chunkSize =
        chunkSize * (size / chunkSize) := by
      calc chunkSize * (size / chunkSize - 1) + chunkSize
          = chunkSize * ((size / chunkSize - 1) + 1) := by ring
        _ = chunkSize * (size / chunkSize) := by rw [hone]
    omega
  · rw [if_neg h0]
    simp only [Nat.add_sub_cancel]
    omega

theorem getLast?_range_map {β : Type _} (f : Nat → β) {n : Nat} (hn : 0 < n) :
    ((List.range n).map f).getLast? = some (f (n - 1)) := by
  rw [List.getLast?_eq_getElem?]
  simp only [List.length_map, List.length_range]
  rw [List.getElem?_map, List.getElem?_range (by omega)]
  rfl

theorem chunkBounds_mem_iff {size chunkSize : Nat} (p : Nat × Nat) :
    p ∈ chunkBounds size chunkSize ↔
      ∃ j < totalChunks size chunkSize,
        p = (j * chunkSize, min (j * chunkSize + chunkSize) size) := by
  rw [chunkBounds]
  simp only [List.mem_map, List.mem_range]
  constructor
  · rintro ⟨j, hj, rfl⟩; exact ⟨j, hj, rfl⟩
  · rintro ⟨j, hj, rfl⟩; exact ⟨j, hj, rfl⟩

/-- C4.  For a positive file size and chunk size, `processFileInChunks`
produces exactly `⌈size / chunkSize⌉` chunks (the count `n` satisfies
`chunkSize * (n-1) < size ≤ chunkSize * n`), every byte of the file lies in
exactly one chunk (contiguous cover, no gaps, no overlaps), and the final
chunk spans from `(n-1) * chunkSize` to `size`, so its length is
`size % chunkSize`, or `chunkSize` when `chunkSize` divides `size`. -/
theorem chunkBounds_claim (size chunkSize : Nat) (hs : 0 < size) (hc : 0 < chunkSize) :
    ((chunkBounds size chunkSize).length = totalChunks size chunkSize ∧
      size ≤ chunkSize * totalChunks size chunkSize ∧
      chunkSize * (totalChunks size chunkSize - 1) < size) ∧
    (∀ i < size, ∃! p : Nat × Nat,
      p ∈ chunkBounds size chunkSize ∧ p.1 ≤ i ∧ i < p.2) ∧
    ((chunkBounds size chunkSize).getLast? =
      some ((totalChunks size chunkSize - 1) * chunkSize, size) ∧
      size - (totalChunks size chunkSize - 1) * chunkSize =
        if size % chunkSize = 0 then chunkSize else size % chunkSize) := by
  have hmod := Nat.div_add_mod size chunkSize
  have hrlt : size % chunkSize < chunkSize := Nat.mod_lt _ hc
  have hle := @size_le_mul_totalChunks size chunkSize hc
  have hnpos : 0 < totalChunks size chunkSize := by
    by_contra h
    have hn0 : totalChunks size chunkSize = 0 := by omega
    have : chunkSize * totalChunks size chunkSize = 0 := by rw [hn0]; ring
    omega
  refine ⟨⟨by rw [chunkBounds]; simp, hle, mul_pred_totalChunks_lt hs hc⟩, ?_, ?_, ?_⟩
  · intro i hi
    have hdm := Nat.div_add_mod i chunkSize
    have hmlt : i % chunkSize < chunkSize := Nat.mod_lt _ hc
    have hcomm : i / chunkSize * chunkSize = chunkSize * (i / chunkSize) :=
      Nat.mul_comm _ _
    have hj : i / chunkSize < totalChunks size chunkSize := by
      rw [Nat.div_lt_iff_lt_mul hc]
      have hcomm2 : totalChunks size chunkSize * chunkSize =
          chunkSize * totalChunks size chunkSize := Nat.mul_comm _ _
      omega
    refine ⟨(i / chunkSize * chunkSize, min (i / chunkSize * chunkSize + chunkSize) size),
      ⟨(chunkBounds_mem_iff _).mpr ⟨i / chunkSize, hj, rfl⟩, by omega,
        lt_min (by omega) hi⟩, ?_⟩
    rintro q ⟨hqmem, hq1, hq2⟩
    obtain ⟨j, hjlt, rfl⟩ := (chunkBounds_mem_iff _).mp hqmem
    simp only at hq1 hq2
    have hj2 : i < j * chunkSize + chunkSize :=
      lt_of_lt_of_le hq2 (min_le_left _ _)
    have hji : i / chunkSize = j :=
      Nat.div_eq_of_lt_le hq1 (by rw [Nat.succ_mul]; omega)
    rw [hji]
  · rw [chunkBounds, getLast?_range_map _ hnpos]
    have hone : totalChunks size chunkSize - 1 + 1 = totalChunks size chunkSize := by omega
    have hdist : (totalChunks size chunkSize - 1) * chunkSize + chunkSize =
        (totalChunks size chunkSize - 1 + 1) * chunkSize := by ring
    rw [hone] at hdist
    have hcomm : totalChunks size chunkSize * chunkSize =
        chunkSize * totalChunks size chunkSize := Nat.mul_comm _ _
    have hmin : min ((totalChunks size chunkSize - 1) * chunkSize + chunkSize) size = size :=
      min_eq_right (by omega)
    rw [hmin]
  · have hn := @totalChunks_eq size chunkSize hc
    by_cases h0 : size % chunkSize = 0
    · rw [if_pos h0]
      rw [if_pos h0] at hn
      have hqpos : 0 < size / chunkSize := by
        rcases Nat.eq_zero_or_pos (size / chunkSize) with hq0 | hqpos
        · have hm0 : chunkSize * (size / chunkSize) = 0 := by rw [hq0]; ring
          omega
        · exact hqpos
      rw [hn]
      simp only [Nat.add_zero]
      have hone : size / chunkSize - 1 + 1 = size / chunkSize := by omega
      have hstep : (size / chunkSize - 1) * chunkSize + chunkSize =
          (size / chunkSize) * chunkSize := by
        calc (size / chunkSize - 1) * chunkSize + chunkSize
            = ((size / chunkSize - 1) + 1) * chunkSize := by ring
          _ = (size / chunkSize) * chunkSize := by rw [hone]
      have hcomm : (size / chunkSize) * chunkSize = chunkSize * (size / chunkSize) :=
        Nat.mul_comm _ _
      omega
    · rw [if_neg h0]
      rw [if_neg h0] at hn
      rw [hn]
      simp only [Nat.add_sub_cancel]
      have hcomm : (size / chunkSize) * chunkSize = chunkSize * (size / chunkSize) :=
        Nat.mul_comm _ _
      omega

/-- Witness for C4 at `size = 10`, `chunkSize = 4`. -/
theorem chunkBounds_claim_witness :
    (0 < 10 ∧ 0 < 4) ∧ (chunkBounds 10 4).length = totalChunks 10 4 :=
  ⟨⟨by decide, by decide⟩, (chunkBounds_claim 10 4 (by decide) (by decide)).1.1⟩

/-- Witness for C5 at a single `txt` document. -/
theorem startProcessingDispatch_claim_witness :
    ([DocumentFormat.txt] : List DocumentFormat) ≠ [] ∧
    startProcessingDispatch [DocumentFormat.txt] =
      MergeDispatch.nativeMerge DocumentFormat.txt :=
  ⟨by decide, (startProcessingDispatch_claim [DocumentFormat.txt] (by decide)).2.1
    DocumentFormat.txt (by decide) (by decide)⟩

/-! ## C6: the text same-format merge and empty inputs -/

theorem mergeTextGo_eq_joinWith (separator : String) (total : Nat) :
    ∀ (ts : List String) (i : Nat), i + ts.length = total →
      mergeTextGo separator false total i ts = joinWith separator ts := by
  intro ts
  induction ts with
  | nil => intro i h; rfl
  | cons t rest ih =>
    intro i h
    rw [mergeTextGo]
    rw [if_neg (by simp)]
    cases rest with
    | nil =>
      have hni : ¬ i < total - 1 := by
        simp only [List.length_cons, List.length_nil] at h
        omega
      rw [if_neg hni]
      have hrec : mergeTextGo separator false total (i + 1) [] = "" := rfl
      rw [hrec]
      show "" ++ t ++ "" ++ "" = joinWith separator [t]
      simp [joinWith]
    | cons t2 rest2 =>
      have hyi : i < total - 1 := by
        simp only [List.length_cons] at h
        omega
      rw [if_pos hyi]
      rw [ih (i + 1) (by simp only [List.length_cons] at h ⊢; omega)]
      have hjw : joinWith separator (t :: t2 :: rest2) =
          t ++ separator ++ joinWith separator (t2 :: rest2) := rfl
      rw [hjw]
      simp [String.append_assoc]

/-- C6 counterexample.  The claim says an empty input contributes nothing
to the merged output; but appending an empty document changes the output of
`mergeTextFiles` by a trailing default separator, so empty inputs are not
skipped. -/
theorem mergeTextFiles_counterexample :
    mergeTextFiles ["a", ""] = "a\n\n---\n\n" ∧
    mergeTextFiles ["a"] = "a" ∧
    mergeTextFiles ["a", ""] ≠ mergeTextFiles ["a"] := by
  refine ⟨by decide, by decide, by decide⟩

theorem mergeTextFiles_false_eq (documents : List String) (separator : String) :
    mergeTextFiles documents separator false = joinWith separator documents := by
  rw [mergeTextFiles]
  exact mergeTextGo_eq_joinWith separator documents.length documents 0 (by omega)

theorem mergeTextGo_true_eq (separator : String) (total : Nat) :
    ∀ (ts : List String) (i : Nat), ts ≠ [] → 1 ≤ i → i + ts.length = total →
      mergeTextGo separator true total i ts =
        textDocumentBanner i ++ joinWithBanners separator i ts := by
  intro ts
  induction ts with
  | nil => intro i hne _ _; exact absurd rfl hne
  | cons t rest ih =>
    intro i hne hi htot
    rw [mergeTextGo]
    rw [if_pos ⟨rfl, by omega⟩]
    cases rest with
    | nil =>
      have hni : ¬ i < total - 1 := by
        simp only [List.length_cons, List.length_nil] at htot
        omega
      rw [if_neg hni]
      have hrec : mergeTextGo separator true total (i + 1) [] = "" := rfl
      rw [hrec]
      have hjb : joinWithBanners separator i [t] = t := rfl
      rw [hjb]
      simp [String.append_assoc]
    | cons r rs =>
      have hyi : i < total - 1 := by
        simp only [List.length_cons] at htot
        omega
      rw [if_pos hyi]
      rw [ih (i + 1) (by simp) (by omega)
        (by simp only [List.length_cons] at htot ⊢; omega)]
      have hjb : joinWithBanners separator i (t :: r :: rs) =
          t ++ separator ++ textDocumentBanner (i + 1) ++
            joinWithBanners separator (i + 1) (r :: rs) := rfl
      rw [hjb]
      simp [String.append_assoc]

theorem mergeTextFiles_true_eq (documents : List String) (separator : String) :
    mergeTextFiles documents separator true = joinWithBanners separator 0 documents := by
  cases documents with
  | nil => rfl
  | cons d rest =>
    rw [mergeTextFiles, mergeTextGo]
    rw [if_neg (by simp)]
    cases rest with
    | nil =>
      rw [if_neg (by simp)]
      have hrec : mergeTextGo separator true [d].length (0 + 1) [] = "" := rfl
      rw [hrec]
      have hjb : joinWithBanners separator 0 [d] = d := rfl
      rw [hjb]
      simp
    | cons r rs =>
      have hyi : 0 < (d :: r :: rs).length - 1 := by
        simp only [List.length_cons]
        omega
      rw [if_pos hyi]
      rw [mergeTextGo_true_eq separator (d :: r :: rs).length (r :: rs) 1 (by simp)
        (le_refl _) (by simp only [List.length_cons]; omega)]
      have hjb : joinWithBanners separator 0 (d :: r :: rs) =
          d ++ separator ++ textDocumentBanner 1 ++
            joinWithBanners separator 1 (r :: rs) := rfl
      rw [hjb]
      simp [String.append_assoc]

theorem joinWith_append_empty (separator : String) :
    ∀ documents : List String, documents ≠ [] →
      joinWith separator (documents ++ [""]) = joinWith separator documents ++ separator := by
  intro documents
  induction documents with
  | nil => intro h; exact absurd rfl h
  | cons x rest ih =>
    intro _
    cases rest with
    | nil =>
      have h1 : joinWith separator ([x] ++ [""]) = x ++ separator ++ "" := rfl
      have h2 : joinWith separator [x] = x := rfl
      rw [h1, h2]
      simp
    | cons y ys =>
      have h1 : joinWith separator ((x :: y :: ys) ++ [""]) =
          x ++ separator ++ joinWith separator ((y :: ys) ++ [""]) := rfl
      rw [h1, ih (by simp)]
      have h2 : joinWith separator (x :: y :: ys) =
          x ++ separator ++ joinWith separator (y :: ys) := rfl
      rw [h2]
      simp [String.append_assoc]

theorem joinWithBanners_append_empty (separator : String) :
    ∀ (documents : List String) (i : Nat), documents ≠ [] →
      joinWithBanners separator i (documents ++ [""]) =
        joinWithBanners separator i documents ++ separator ++
          textDocumentBanner (i + documents.length) := by
  intro documents
  induction documents with
  | nil => intro i h; exact absurd rfl h
  | cons x rest ih =>
    intro i _
    cases rest with
    | nil =>
      have h1 : joinWithBanners separator i ([x] ++ [""]) =
          x ++ separator ++ textDocumentBanner (i + 1) ++
            joinWithBanners separator (i + 1) [""] := rfl
      have h2 : joinWithBanners separator (i + 1) [""] = "" := rfl
      have h3 : joinWithBanners separator i [x] = x := rfl
      rw [h1, h2, h3]
      simp [String.append_assoc]
    | cons y ys =>
      have h1 : joinWithBanners separator i ((x :: y :: ys) ++ [""]) =
          x ++ separator ++ textDocumentBanner (i + 1) ++
            joinWithBanners separator (i + 1) ((y :: ys) ++ [""]) := rfl
      rw [h1, ih (i + 1) (by simp)]
      have h2 : joinWithBanners separator i (x :: y :: ys) =
          x ++ separator ++ textDocumentBanner (i + 1) ++
            joinWithBanners separator (i + 1) (y :: ys) := rfl
      rw [h2]
      have harith : i + 1 + (y :: ys).length = i + (x :: y :: ys).length := by
        simp only [List.length_cons]
        omega
      rw [harith]
      simp [String.append_assoc]

/-- C6 as amended.  `mergeTextFiles` concatenates the document bodies with
the configured separator placed after every non-final input, and, when
`includeHeaders` is set, additionally inserts the numbered banner before
each non-first input — in both configurations without skipping empty
inputs: appending an empty document to a non-empty list appends one more
separator (and, with headers, one more banner) to the merged output. -/
theorem mergeTextFiles_amended :
    (∀ (documents : List String) (separator : String),
      mergeTextFiles documents separator false = joinWith separator documents) ∧
    (∀ (documents : List String) (separator : String),
      mergeTextFiles documents separator true = joinWithBanners separator 0 documents) ∧
    (∀ (documents : List String) (separator : String), documents ≠ [] →
      mergeTextFiles (documents ++ [""]) separator false =
        mergeTextFiles documents separator false ++ separator) ∧
    (∀ (documents : List String) (separator : String), documents ≠ [] →
      mergeTextFiles (documents ++ [""]) separator true =
        mergeTextFiles documents separator true ++ separator ++
          textDocumentBanner documents.length) := by
  refine ⟨mergeTextFiles_false_eq, mergeTextFiles_true_eq, ?_, ?_⟩
  · intro documents separator hne
    rw [mergeTextFiles_false_eq, mergeTextFiles_false_eq]
    exact joinWith_append_empty separator documents hne
  · intro documents separator hne
    rw [mergeTextFiles_true_eq, mergeTextFiles_true_eq]
    have h := joinWithBanners_append_empty separator documents 0 hne
    rw [h]
    have harith : (0 : Nat) + documents.length = documents.length := by omega
    rw [harith]

/-! ## C7: CSV merge with shared header -/

/-- C7.  Merging two CSV inputs that share an identical header row with
`includeHeaders` and `skipDuplicateHeaders` keeps the header row from only
the first input: the merged rows are the shared header followed by both
files' data rows, so the row count is `1 + (rows₁ - 1) + (rows₂ - 1)`,
where `rowsᵢ` counts the non-blank lines (`parseCSV` rows) of input `i`. -/
theorem mergeCSVFiles_claim (t1 t2 : String) (h : List String)
    (d1 d2 : List (List String))
    (h1 : parseCSV t1 = h :: d1) (h2 : parseCSV t2 = h :: d2) :
    mergeCSVRows [t1, t2] true true = h :: (d1 ++ d2) ∧
    (mergeCSVRows [t1, t2] true true).length =
      1 + ((parseCSV t1).length - 1) + ((parseCSV t2).length - 1) := by
  have hstep1 : mergeCSVStep true true ([], false) t1 = (h :: d1, true) := by
    rw [mergeCSVStep, h1]
    simp
  have hstep2 : mergeCSVStep true true (h :: d1, true) t2 = (h :: (d1 ++ d2), true) := by
    rw [mergeCSVStep, h2]
    simp
  have hrows : mergeCSVRows [t1, t2] true true = h :: (d1 ++ d2) := by
    rw [mergeCSVRows]
    simp only [List.foldl_cons, List.foldl_nil]
    rw [hstep1, hstep2]
  refine ⟨hrows, ?_⟩
  rw [hrows, h1, h2]
  simp only [List.length_cons, List.length_append]
  omega

/-- Witness for C7 on two concrete CSVs sharing the header `a,b`. -/
theorem mergeCSVFiles_claim_witness :
    (parseCSV "a,b\n1,2" = [["a", "b"], ["1", "2"]] ∧
      parseCSV "a,b\n3,4" = [["a", "b"], ["3", "4"]]) ∧
    mergeCSVRows ["a,b\n1,2", "a,b\n3,4"] true true =
      ["a", "b"] :: ([["1", "2"]] ++ [["3", "4"]]) :=
  ⟨⟨by decide, by decide⟩,
    (mergeCSVFiles_claim "a,b\n1,2" "a,b\n3,4" ["a", "b"] [["1", "2"]] [["3", "4"]]
      (by decide) (by decide)).1⟩

/-! ## C9: single-document round trip -/

/-- C9 counterexample.  For the native CSV format the single-document
round trip is not text-preserving even modulo whitespace normalization:
merging the one CSV document `a,b` re-serializes every field in double
quotes, and the added quotes survive whitespace normalization. -/
theorem roundTrip_counterexample :
    mergeCSVFiles ["a,b"] = "\"a\",\"b\"" ∧
    specNormalizeWhitespace (mergeCSVFiles ["a,b"]) ≠ specNormalizeWhitespace "a,b" := by
  exact ⟨by decide, by decide⟩

/-- C9 as amended.  The round trip holds exactly (not merely modulo
whitespace) for the plain-text format: merging a one-element list returns
the text unchanged for every separator and header setting.  For CSV the
single-document merge returns the parsed rows unchanged
(`mergeCSVRows [t] = parseCSV t`), but the final serialization re-quotes
every field and drops blank lines, so the text itself is not preserved. -/
theorem roundTrip_amended :
    (∀ (t separator : String) (includeHeaders : Bool),
      mergeTextFiles [t] separator includeHeaders = t) ∧
    (∀ t : String, mergeCSVRows [t] true true = parseCSV t) := by
  constructor
  · intro t separator includeHeaders
    rw [mergeTextFiles, mergeTextGo]
    rw [if_neg (by simp)]
    rw [if_neg (by simp)]
    have hrec : mergeTextGo separator includeHeaders [t].length (0 + 1) [] = "" := rfl
    rw [hrec]
    simp
  · intro t
    rw [mergeCSVRows]
    simp only [List.foldl_cons, List.foldl_nil]
    cases hp : parseCSV t with
    | nil => rw [mergeCSVStep, hp]
    | cons r0 rest =>
      rw [mergeCSVStep, hp]
      simp

/-! ## C10: Word merge under preserveFormatting -/

/-- C10.  `WordProcessor.mergeWordDocuments` returns a failure result
whenever `preserveFormatting` is set, before touching any document (the
result does not depend on the document list); `defaultMergeOptions` sets
`preserveFormatting` to `true`, so a same-format Word merge started with
the default options always fails with no output data. -/
theorem mergeWordDocuments_claim :
    (∀ (documents : List WordDocInput) (options : MergeOptions),
      options.preserveFormatting = true →
      (mergeWordDocuments documents options).success = false ∧
      (mergeWordDocuments documents options).paragraphs = [] ∧
      mergeWordDocuments documents options = mergeWordDocuments [] options) ∧
    defaultMergeOptions.preserveFormatting = true ∧
    (∀ documents : List WordDocInput,
      (mergeWordDocuments documents defaultMergeOptions).success = false ∧
      (mergeWordDocuments documents defaultMergeOptions).error ≠ none) := by
  have hbase : ∀ (documents : List WordDocInput) (options : MergeOptions),
      options.preserveFormatting = true →
      (mergeWordDocuments documents options).success = false ∧
      (mergeWordDocuments documents options).paragraphs = [] ∧
      mergeWordDocuments documents options = mergeWordDocuments [] options := by
    intro documents options hpf
    rw [mergeWordDocuments, if_pos hpf]
    refine ⟨rfl, rfl, ?_⟩
    rw [mergeWordDocuments, if_pos hpf]
  refine ⟨hbase, rfl, ?_⟩
  intro documents
  have h := hbase documents defaultMergeOptions rfl
  refine ⟨h.1, ?_⟩
  rw [(h.2.2 : _ = _)]
  simp [mergeWordDocuments, defaultMergeOptions]

/-! ## C8: Excel sheet-name uniqueness and the 31-character limit -/

theorem decVal_decChars : ∀ n : Nat, decVal (decChars n) = n := by
  intro n
  induction n using Nat.strong_induction_on with
  | _ n ih =>
    rw [decChars]
    by_cases h : n < 10
    · rw [dif_pos h]
      rw [decVal]
      simp only [List.foldl_cons, List.foldl_nil]
      interval_cases n <;> decide
    · rw [dif_neg h]
      rw [decVal, List.foldl_append]
      have ihd := ih (n / 10) (Nat.div_lt_self (by omega) (by omega))
      rw [decVal] at ihd
      simp only [List.foldl_cons, List.foldl_nil]
      rw [ihd]
      have hm : n % 10 < 10 := Nat.mod_lt _ (by omega)
      have hd : (Nat.digitChar (n % 10)).toNat - 48 = n % 10 := by
        revert hm
        generalize n % 10 = m
        intro hm
        interval_cases m <;> decide
      omega

theorem decChars_inj {m n : Nat} (h : decChars m = decChars n) : m = n := by
  have h2 := congrArg decVal h
  rwa [decVal_decChars, decVal_decChars] at h2

theorem decChars_all_digits : ∀ n : Nat, ∀ c ∈ decChars n, c.isDigit = true := by
  intro n
  induction n using Nat.strong_induction_on with
  | _ n ih =>
    rw [decChars]
    by_cases h : n < 10
    · rw [dif_pos h]
      intro c hc
      simp only [List.mem_singleton] at hc
      subst hc
      interval_cases n <;> decide
    · rw [dif_neg h]
      intro c hc
      rcases List.mem_append.mp hc with hc | hc
      · exact ih (n / 10) (Nat.div_lt_self (by omega) (by omega)) c hc
      · simp only [List.mem_singleton] at hc
        subst hc
        have hm : n % 10 < 10 := Nat.mod_lt _ (by omega)
        revert hm
        generalize n % 10 = m
        intro hm
        interval_cases m <;> decide

theorem takeWhile_all_append (p : Char → Bool) :
    ∀ (l : List Char) (x : Char) (r : List Char),
      (∀ c ∈ l, p c = true) → p x = false →
      ((l ++ x :: r).takeWhile p) = l := by
  intro l
  induction l with
  | nil =>
    intro x r _ hx
    simp [List.takeWhile_cons, hx]
  | cons c t ih =>
    intro x r hl hx
    simp only [List.cons_append, List.takeWhile_cons, hl c (by simp)]
    rw [ih x r (fun d hd => hl d (by simp [hd])) hx]
    simp

theorem underscore_digits_cancel {a b d e : List Char}
    (hd : ∀ c ∈ d, c.isDigit = true) (he : ∀ c ∈ e, c.isDigit = true)
    (h : a ++ '_' :: d = b ++ '_' :: e) : d = e := by
  have hrev := congrArg List.reverse h
  have hshape : ∀ (u : List Char) (v : List Char),
      (u ++ '_' :: v).reverse = v.reverse ++ '_' :: u.reverse := by
    intro u v
    rw [List.reverse_append, List.reverse_cons, List.append_assoc, List.singleton_append]
  rw [hshape, hshape] at hrev
  have h1 := congrArg (List.takeWhile Char.isDigit) hrev
  rw [takeWhile_all_append _ _ _ _ (fun c hc => hd c (List.mem_reverse.mp hc)) (by decide),
    takeWhile_all_append _ _ _ _ (fun c hc => he c (List.mem_reverse.mp hc)) (by decide)]
    at h1
  exact List.reverse_inj.mp h1

theorem sheetNameCandidate_inj (base : List Char) {k l : Nat}
    (hk : k ≠ 0) (hl : l ≠ 0)
    (h : sheetNameCandidate base k = sheetNameCandidate base l) : k = l := by
  rw [sheetNameCandidate, if_neg hk, sheetNameCandidate, if_neg hl] at h
  dsimp only at h
  exact decChars_inj
    (underscore_digits_cancel (decChars_all_digits k) (decChars_all_digits l) h)

theorem find_le_length_succ (existing : List (List Char)) (base : List Char) :
    Nat.find (exists_free_candidate existing base) ≤ existing.length + 1 := by
  by_contra hgt
  push_neg at hgt
  have hall : ∀ k, k ≤ existing.length + 1 → sheetNameCandidate base k ∈ existing := by
    intro k hk
    have hmin := Nat.find_min (exists_free_candidate existing base)
      (lt_of_le_of_lt hk hgt)
    simpa using hmin
  have hmaps : ∀ k ∈ Finset.Icc 1 (existing.length + 1),
      sheetNameCandidate base k ∈ existing.toFinset := by
    intro k hk
    simp only [Finset.mem_Icc] at hk
    rw [List.mem_toFinset]
    exact hall k hk.2
  have hinj : Set.InjOn (fun k => sheetNameCandidate base k)
      (Finset.Icc 1 (existing.length + 1)) := by
    intro x hx y hy hxy
    simp only [Finset.coe_Icc, Set.mem_Icc] at hx hy
    exact sheetNameCandidate_inj base (by omega) (by omega) hxy
  have hcard := Finset.card_le_card_of_injOn _ hmaps hinj
  rw [Nat.card_Icc] at hcard
  have htf := List.toFinset_card_le existing
  omega

theorem decChars_length_le : ∀ {e n : Nat}, 0 < e → n < 10 ^ e →
    (decChars n).length ≤ e := by
  intro e
  induction e with
  | zero => intro n h; omega
  | succ e ih =>
    intro n hpos hn
    rw [decChars]
    by_cases h : n < 10
    · rw [dif_pos h]; simp
    · rw [dif_neg h]
      have he : 0 < e := by
        by_contra h0
        have he0 : e = 0 := by omega
        subst he0
        rw [pow_one] at hn
        omega
      have hdiv : n / 10 < 10 ^ e := by
        rw [Nat.div_lt_iff_lt_mul (by omega)]
        calc n < 10 ^ (e + 1) := hn
          _ = 10 ^ e * 10 := by ring
      have := ih he hdiv
      simp only [List.length_append, List.length_cons, List.length_nil]
      omega

theorem ensureUniqueSheetName_not_mem (existing : List (List Char)) (base : List Char) :
    ensureUniqueSheetName existing base ∉ existing :=
  Nat.find_spec (exists_free_candidate existing base)

theorem sheetNameCandidate_length_le {base : List Char} {k : Nat}
    (hk : k < 10 ^ 21) : (sheetNameCandidate base k).length ≤ 31 := by
  rw [sheetNameCandidate]
  by_cases h0 : k = 0
  · rw [if_pos h0]
    rw [List.length_take]
    omega
  · rw [if_neg h0]
    dsimp only
    have hd : (decChars k).length ≤ 21 := decChars_length_le (by omega) hk
    simp only [List.length_append, List.length_cons, List.length_take]
    omega

theorem ensureUniqueSheetName_length_le (existing : List (List Char)) (base : List Char)
    (hb : existing.length + 2 < 10 ^ 21) :
    (ensureUniqueSheetName existing base).length ≤ 31 := by
  apply sheetNameCandidate_length_le
  have := find_le_length_succ existing base
  omega

theorem errorSheetName_length_le {i : Nat} (hi : i + 1 < 10 ^ 21) :
    (errorSheetName i).length ≤ 31 := by
  rw [errorSheetName]
  have hd : (decChars (i + 1)).length ≤ 21 := decChars_length_le (by omega) hi
  have h4 : ("File".data).length = 4 := rfl
  have h6 : ("_Error".data).length = 6 := rfl
  simp only [List.length_append, h4, h6]
  omega

theorem ensureUniqueSheetName_eq_of_free (existing : List (List Char))
    (base : List Char) (h : sheetNameCandidate base 0 ∉ existing) :
    ensureUniqueSheetName existing base = sheetNameCandidate base 0 := by
  have h0 : Nat.find (exists_free_candidate existing base) = 0 :=
    (Nat.find_eq_zero _).mpr h
  rw [ensureUniqueSheetName, h0]

attribute [irreducible] ensureUniqueSheetName

theorem addWorkbookSheets_length_le (i : Nat) :
    ∀ (sheets : List Sheet) (sheetIndex : Nat) (acc : List (List Char)),
      (addWorkbookSheets i sheetIndex sheets acc).length ≤ acc.length + sheets.length := by
  intro sheets
  induction sheets with
  | nil => intro j acc; simp [addWorkbookSheets]
  | cons s rest ih =>
    intro j acc
    rw [addWorkbookSheets]
    by_cases hr : s.hasRef = true
    · rw [if_pos hr]
      have h1 := ih (j + 1) (acc ++ [ensureUniqueSheetName acc (defaultSheetName i j s.name)])
      simp only [List.length_append, List.length_cons, List.length_nil] at h1 ⊢
      omega
    · rw [if_neg hr]
      have h1 := ih (j + 1) acc
      simp only [List.length_cons]
      omega

theorem addWorkbookSheets_all31 (i : Nat) :
    ∀ (sheets : List Sheet) (sheetIndex : Nat) (acc : List (List Char)),
      acc.length + sheets.length + 1 < 10 ^ 21 →
      (∀ nm ∈ acc, nm.length ≤ 31) →
      ∀ nm ∈ addWorkbookSheets i sheetIndex sheets acc, nm.length ≤ 31 := by
  intro sheets
  induction sheets with
  | nil => intro j acc _ hacc; simpa [addWorkbookSheets] using hacc
  | cons s rest ih =>
    intro j acc hb hacc
    rw [addWorkbookSheets]
    by_cases hr : s.hasRef = true
    · rw [if_pos hr]
      apply ih (j + 1)
      · simp only [List.length_append, List.length_cons, List.length_nil]
        simp only [List.length_cons] at hb
        omega
      · intro nm hnm
        rcases List.mem_append.mp hnm with hnm | hnm
        · exact hacc nm hnm
        · simp only [List.mem_singleton] at hnm
          subst hnm
          apply ensureUniqueSheetName_length_le
          simp only [List.length_cons] at hb
          omega
    · rw [if_neg hr]
      apply ih (j + 1)
      · simp only [List.length_cons] at hb
        omega
      · exact hacc

theorem addWorkbookSheets_nodup (i : Nat) :
    ∀ (sheets : List Sheet) (sheetIndex : Nat) (acc : List (List Char)),
      acc.Nodup → (addWorkbookSheets i sheetIndex sheets acc).Nodup := by
  intro sheets
  induction sheets with
  | nil => intro j acc hacc; simpa [addWorkbookSheets] using hacc
  | cons s rest ih =>
    intro j acc hacc
    rw [addWorkbookSheets]
    by_cases hr : s.hasRef = true
    · rw [if_pos hr]
      apply ih (j + 1)
      rw [List.nodup_append]
      refine ⟨hacc, List.nodup_singleton _, ?_⟩
      intro a ha hamem
      simp only [List.mem_singleton] at hamem
      subst hamem
      exact ensureUniqueSheetName_not_mem acc _ ha
    · rw [if_neg hr]
      exact ih (j + 1) acc hacc

theorem mergeExcelGo_all31 :
    ∀ (documents : List (Option (List Sheet))) (i : Nat) (acc : List (List Char)),
      i + documents.length < 10 ^ 21 →
      acc.length + insertionBound documents + 1 < 10 ^ 21 →
      (∀ nm ∈ acc, nm.length ≤ 31) →
      ∀ nm ∈ mergeExcelGo i documents acc, nm.length ≤ 31 := by
  intro documents
  induction documents with
  | nil => intro i acc _ _ hacc; simpa [mergeExcelGo] using hacc
  | cons d rest ih =>
    intro i acc hi hb hacc
    cases d with
    | none =>
      rw [mergeExcelGo]
      apply ih (i + 1)
      · simp only [List.length_cons] at hi
        omega
      · simp only [List.length_append, List.length_cons, List.length_nil]
        rw [insertionBound] at hb
        omega
      · intro nm hnm
        rcases List.mem_append.mp hnm with hnm | hnm
        · exact hacc nm hnm
        · simp only [List.mem_singleton] at hnm
          subst hnm
          apply errorSheetName_length_le
          simp only [List.length_cons] at hi
          omega
    | some sheets =>
      rw [mergeExcelGo]
      have hlen := addWorkbookSheets_length_le i sheets 0 acc
      rw [insertionBound] at hb
      apply ih (i + 1)
      · simp only [List.length_cons] at hi
        omega
      · omega
      · apply addWorkbookSheets_all31 i sheets 0 acc (by omega) hacc

theorem mergeExcelGo_nodup :
    ∀ (documents : List (Option (List Sheet))) (i : Nat) (acc : List (List Char)),
      (∀ d ∈ documents, d ≠ none) → acc.Nodup →
      (mergeExcelGo i documents acc).Nodup := by
  intro documents
  induction documents with
  | nil => intro i acc _ hacc; simpa [mergeExcelGo] using hacc
  | cons d rest ih =>
    intro i acc hnone hacc
    cases d with
    | none => exact absurd rfl (hnone none (by simp))
    | some sheets =>
      rw [mergeExcelGo]
      exact ih (i + 1) _ (fun d hd => hnone d (List.mem_cons_of_mem _ hd))
        (addWorkbookSheets_nodup i sheets 0 acc hacc)

/-- C8 counterexample.  Error-placeholder sheets are appended without the
uniqueness loop: if the first file parses with a single sheet literally
named `File2_Error` and the second file fails to parse, the output
workbook contains the name `File2_Error` twice, so the output sheet names
are not pairwise distinct. -/
theorem mergeExcelFiles_counterexample :
    (mergeExcelFiles [some [⟨"File2_Error".data, true⟩], none]).sheetNames =
      ["File2_Error".data, "File2_Error".data] ∧
    ¬ (mergeExcelFiles [some [⟨"File2_Error".data, true⟩], none]).sheetNames.Nodup := by
  have huniq : ensureUniqueSheetName [] ("File2_Error".data) = "File2_Error".data := by
    rw [ensureUniqueSheetName_eq_of_free _ _ (List.not_mem_nil _)]
    decide
  have hdef : defaultSheetName 0 0 ("File2_Error".data) = "File2_Error".data := by
    rw [defaultSheetName, if_pos ⟨rfl, rfl⟩]
  have h2 : decChars (1 + 1) = ['2'] := by
    rw [decChars]
    decide
  have herr : errorSheetName 1 = "File2_Error".data := by
    rw [errorSheetName, h2]
    decide
  have hnames : mergeExcelGo 0 [some [⟨"File2_Error".data, true⟩], none] [] =
      ["File2_Error".data, "File2_Error".data] := by
    rw [mergeExcelGo, addWorkbookSheets, if_pos rfl, addWorkbookSheets, hdef, huniq,
      mergeExcelGo, herr, mergeExcelGo]
    simp
  constructor
  · simp [mergeExcelFiles, hnames]
  · simp [mergeExcelFiles, hnames]

/-- C8 as amended.  For any realistic batch (at most `10^21 - 2` sheets
plus files — far above the enforced 100-file limit), every sheet name in
the merged workbook is at most 31 characters long, and when every document
parses (no error-placeholder sheet is created) the output sheet names are
pairwise distinct; a parse failure appends its `FileN_Error` sheet without
the uniqueness check, so distinctness can then fail (see the
counterexample). -/
theorem mergeExcelFiles_amended (documents : List (Option (List Sheet)))
    (hsize : documents.length + insertionBound documents + 1 < 10 ^ 21) :
    (∀ nm ∈ (mergeExcelFiles documents).sheetNames, nm.length ≤ 31) ∧
    ((∀ d ∈ documents, d ≠ none) → (mergeExcelFiles documents).sheetNames.Nodup) := by
  constructor
  · intro nm hmem
    simp only [mergeExcelFiles] at hmem
    split at hmem
    · simp at hmem
    · exact mergeExcelGo_all31 documents 0 [] (by omega)
        (by simp only [List.length_nil]; omega) (by simp) nm hmem
  · intro hnone
    simp only [mergeExcelFiles]
    split
    · simp
    · exact mergeExcelGo_nodup documents 0 [] hnone List.nodup_nil

/-- Witness for the amended C8 on a one-file, one-sheet workbook. -/
theorem mergeExcelFiles_amended_witness :
    (([some [⟨['A'], true⟩]] : List (Option (List Sheet))).length +
      insertionBound [some [⟨['A'], true⟩]] + 1 < 10 ^ 21) ∧
    (mergeExcelFiles [some [⟨['A'], true⟩]]).sheetNames.Nodup :=
  ⟨by decide, (mergeExcelFiles_amended _ (by decide)).2 (by decide)⟩
